import Mathlib

set_option autoImplicit false

/-!
Shallow embedding of the Plan/Action execution core of the pipo_agent
repository (src/core/action.py, src/core/plan.py, src/core/agent.py,
src/core/result.py).  Python dicts are modelled as insertion-ordered
association lists with first-match lookup and in-place overwrite;
Python exceptions are modelled with `Except String`; the language-model
collaborators (the reasonableness judge of `Plan.validate`, the summary
query of `Agent._execute_plan`, the request parser and the plan
proposer) are modelled as explicit function arguments returning
`Except String _`, so that an LLM call that raises is an `.error`.
-/

namespace Pipo

/-- Values flowing through the system: step outputs, bound parameters and
metadata entries. -/
inductive Val where
  | str : String → Val
  | nat : Nat → Val
  deriving DecidableEq

/-- Python dict lookup `m[k]` (first matching key), returning `none` when
the key is absent (a `KeyError` site in Python). -/
def dget {α : Type} : List (String × α) → String → Option α
  | [], _ => none
  | (k0, v0) :: rest, k => if k0 = k then some v0 else dget rest k

/-- Python dict assignment `m[k] = v`: overwrite in place if the key is
present, otherwise append (insertion order). -/
def dinsert {α : Type} : List (String × α) → String → α → List (String × α)
  | [], k, v => [(k, v)]
  | (k0, v0) :: rest, k, v =>
    if k0 = k then (k0, v) :: rest else (k0, v0) :: dinsert rest k v

/-- Keys of a dict, in order. -/
def keysOf {α : Type} (m : List (String × α)) : List String :=
  m.map Prod.fst

/-- An action instance as the executor sees it (src/core/action.py,
class Action).  `clsName` is the Python class name (used by the
validator for registry membership), `runParams` the parameter names
accepted by the subclass `run` method, and `run` the body of that
method; a Python exception raised inside `run` is an `.error`.  The
property-rebinding branch of `Action.execute` (action.py lines 79-107)
copies keyword-argument values unchanged into a rebound clone before
calling `run`; since this model reads parameters from the keyword
arguments themselves, both paths collapse to the single `run` call. -/
structure ActionObj where
  clsName : String
  runParams : List String
  run : List (String × Val) → Except String Val

/-- PlanStep (src/core/plan.py): pyglove gives `input_mapping` default
`{}` and `output_key` default `''`; an empty `output_key` means "no
output key" (Python falsiness). -/
structure PlanStep where
  action : ActionObj
  description : String
  input_mapping : List (String × String)
  output_key : String

/-- Plan (src/core/plan.py). -/
structure Plan where
  goal : String
  steps : List PlanStep

/-- Result (src/core/result.py).  `error` is `Optional[str]` with default
`None`; note that the empty string is a legal, present value. -/
structure Result where
  summary : Val
  raw_outputs : List (String × Val)
  error : Option String
  metadata : List (String × Val)
  deriving DecidableEq

/-- Result.success (result.py lines 17-20): `self.error is None`. -/
def Result.success (r : Result) : Bool :=
  r.error.isNone

/-- Helper for the Python repr-style single quotes used in the source
messages. -/
def quoted (s : String) : String :=
  "\x27" ++ s ++ "\x27"

/-- Message of plan.py line 69. -/
def unknownActionMsg (i : Nat) (cname : String) : String :=
  "Plan Validation Failed: Action " ++ quoted cname ++ " in step " ++
    toString (i + 1) ++ " not found in the registry."

/-- Message of plan.py line 74, written so that the step number and the
offending source key are visible concatenation components. -/
def badSourceMsg (i : Nat) (cname param source : String) : String :=
  "Plan Validation Failed: Step " ++ toString (i + 1) ++
    (" (" ++ quoted cname ++ ") requires input " ++ quoted param ++
      " from source " ++ "\x27") ++ source ++
    ("\x27" ++ ", which is not available from previous steps.")

/-- Message of plan.py line 79. -/
def dupKeyMsg (i : Nat) (cname key : String) : String :=
  "Plan Validation Failed: Output key " ++ quoted key ++ " in step " ++
    toString (i + 1) ++ " (" ++ quoted cname ++
    ") is already used by a previous step."

/-- First entry of `input_mapping` whose source is not yet available
(plan.py lines 72-74 iterate the dict in order and return at the first
miss). -/
def findBadSource : List (String × String) → List String →
    Option (String × String)
  | [], _ => none
  | (param, source) :: rest, avail =>
    if source ∈ avail then findBadSource rest avail
    else some (param, source)

/-- The per-step walk of `Plan.validate` (plan.py lines 59-80):
action-existence check, input-mapping check, duplicate-output-key check,
first failure wins; `some msg` is the failure message, `none` means the
structural walk passed. -/
def validateSteps (registry : List String) :
    Nat → List String → List PlanStep → Option String
  | _, _, [] => none
  | i, avail, step :: rest =>
    if step.action.clsName ∉ registry then
      some (unknownActionMsg i step.action.clsName)
    else
      match findBadSource step.input_mapping avail with
      | some pr => some (badSourceMsg i step.action.clsName pr.1 pr.2)
      | none =>
        if step.output_key = "" then validateSteps registry (i + 1) avail rest
        else if step.output_key ∈ avail then
          some (dupKeyMsg i step.action.clsName step.output_key)
        else validateSteps registry (i + 1) (avail ++ [step.output_key]) rest

/-- Lines of `Plan.describe` for one step (plan.py lines 29-40,
1-based index `i`). -/
def stepLines (i : Nat) (s : PlanStep) : List String :=
  ("Step " ++ toString i ++ ": " ++ s.action.clsName ++ " - " ++
      s.description) ::
    ((if s.input_mapping ≠ [] then
        "  Inputs mapped:" ::
          s.input_mapping.map (fun pr => "  - " ++ pr.1 ++ " from " ++ pr.2)
      else []) ++
      (if s.output_key ≠ "" then ["  Output stored as: " ++ s.output_key]
       else []))

/-- Walk of `Plan.describe` over the steps with 1-based numbering. -/
def describeSteps : Nat → List PlanStep → List String
  | _, [] => []
  | i, s :: rest => stepLines i s ++ describeSteps (i + 1) rest

/-- Plan.describe with `detailed=False`, the form `validate` uses
(plan.py line 83); the `detailed=True` branch is not called by the
embedded code. -/
def Plan.describe (p : Plan) : String :=
  String.intercalate "\n"
    (("Plan to achieve: " ++ p.goal ++ "\n") :: describeSteps 1 p.steps)

/-- Suffix of `s` after the first occurrence of the pattern, as in the
Python `s.split(pat, 1)[-1]`; `none` when the pattern does not occur. -/
def splitTail (pat : List Char) : List Char → Option (List Char)
  | [] => if pat.isEmpty then some [] else none
  | c :: cs =>
    if pat.isPrefixOf (c :: cs) then some ((c :: cs).drop pat.length)
    else splitTail pat cs

/-- Python str.lstrip with a single character argument. -/
def lstripChar (c : Char) (s : String) : String :=
  String.mk (s.data.dropWhile (fun d => d = c))

/-- Python str.lower, character by character. -/
def pyLower (s : String) : String :=
  String.mk (s.data.map Char.toLower)

/-- Python str.startswith. -/
def pyStartsWith (s pre : String) : Bool :=
  pre.data.isPrefixOf s.data

/-- Python str.strip with no argument: drop whitespace from both
ends. -/
def pyStrip (s : String) : String :=
  String.mk
    (((s.data.dropWhile Char.isWhitespace).reverse.dropWhile
        Char.isWhitespace).reverse)

/-- Explanation extraction of plan.py line 95:
`resp.split('No', 1)[-1].strip().lstrip(',').lstrip('.').strip()`. -/
def extractExplanation (resp : String) : String :=
  let tail :=
    match splitTail ['N', 'o'] resp.data with
    | some t => String.mk t
    | none => resp
  pyStrip (lstripChar '.' (lstripChar ',' (pyStrip tail)))

/-- Reasonableness prompt of plan.py lines 84-90. -/
def reasonPrompt (p : Plan) : String :=
  "Given the goal: " ++ quoted p.goal ++ "\n" ++
  "And the sequence of actions: " ++
    String.intercalate ", " (p.steps.map (fun s => s.action.clsName)) ++ "\n" ++
  "Is the following plan a reasonable and logical approach to achieve the goal?\n" ++
  "Plan:\n" ++ p.describe ++ "\n\n" ++
  "Respond with " ++ quoted "Yes" ++ " or " ++ quoted "No" ++ ". If " ++
    quoted "No" ++ ", briefly explain why it" ++ "\x27" ++ "s unreasonable."

/-- Plan.validate (plan.py lines 43-102).  `registry` is the key set of
the copied global registry; `lm` is the language-model collaborator,
mapping a prompt to a response or to a raised exception (`.error`).
The Python default `lm or lf.get_lm()` is not modelled: the agent
always passes its own lm (agent.py line 45). -/
def Plan.validate (p : Plan) (registry : List String)
    (lm : String → Except String String) : Bool × String :=
  if p.steps.isEmpty then
    (false, "Plan Validation Failed: Plan has no steps.")
  else
    match validateSteps registry 0 [] p.steps with
    | some msg => (false, msg)
    | none =>
      match lm (reasonPrompt p) with
      | .error e =>
        (false,
          "Plan Validation Failed: Error during LLM reasonableness check: " ++ e)
      | .ok resp =>
        if pyStartsWith (pyLower resp) "yes" then
          (true, "Plan validation successful.")
        else
          (false,
            "Plan Validation Failed: Plan deemed unreasonable by LLM. Reason: " ++
              (if extractExplanation resp = "" then
                "No specific reason provided."
              else extractExplanation resp))

/-- State-passing form of `Plan.validate`: the Python method binds only
local variables (`registry`, a copy, `available_outputs`,
`action_names`, `prompt`, the response) and never assigns to `self` or
to the global registry, so every return path leaves the plan and the
registry exactly as they were; the embedding records this by returning
the post-call plan and registry alongside the `(ok, message)` pair. -/
def Plan.validateS (p : Plan) (registry : List String)
    (lm : String → Except String String) :
    (Bool × String) × Plan × List String :=
  (Plan.validate p registry lm, p, registry)

/-- Action.execute (action.py lines 42-112) on the `run` path that every
registered action takes: if `run` declares an `lm` parameter and none
was supplied, a mock language model is injected (lines 61-71); the
keyword arguments are then filtered to the parameters `run` accepts
(lines 73-75) with their values passed through unchanged, and `run` is
called. -/
def ActionObj.execute (a : ActionObj) (kwargs : List (String × Val)) :
    Except String Val :=
  let kwargs2 :=
    if "lm" ∈ a.runParams ∧ dget kwargs "lm" = none then
      dinsert kwargs "lm" (Val.str "mock-lm")
    else kwargs
  a.run (kwargs2.filter (fun kv => kv.1 ∈ a.runParams))

/-- Input binding of agent.py lines 182-184: `inputs` starts as an empty
dict and gains `inputs[param] = self._execution_context[source]` for
each mapping entry in order; a missing source key raises `KeyError`,
whose `str` is the quoted key. -/
def mapInputs (ctx : List (String × Val)) :
    List (String × String) → List (String × Val) →
    Except String (List (String × Val))
  | [], acc => .ok acc
  | (param, source) :: rest, acc =>
    match dget ctx source with
    | none => .error (quoted source)
    | some v => mapInputs ctx rest (dinsert acc param v)

/-- Record of one actual call into `step.action.execute`: the 0-based
step index, the keyword arguments passed (mapped inputs plus the `lm`
entry of agent.py line 187), and the execution context and accumulated
`outputs` dict as they stood when the call was made. -/
structure StepTrace where
  idx : Nat
  kwargs : List (String × Val)
  ctxBefore : List (String × Val)
  outputsBefore : List (String × Val)

/-- The step loop of agent.py lines 178-195, instrumented with the list
of action invocations.  Returns the trace, the final execution context,
the final `outputs` dict and the error of the first step that raised
(`none` when every step completed).  On success of a step with a
non-empty `output_key`, the result is stored in the context and in
`outputs` under `"step_" ++ (i+1)` (lines 192-195). -/
def runSteps (lm : Val) :
    List PlanStep → Nat → List (String × Val) → List (String × Val) →
    List StepTrace × List (String × Val) × List (String × Val) × Option String
  | [], _, ctx, outs => ([], ctx, outs, none)
  | step :: rest, i, ctx, outs =>
    match mapInputs ctx step.input_mapping [] with
    | .error e => ([], ctx, outs, some e)
    | .ok inputs =>
      let kwargs := dinsert inputs "lm" lm
      match step.action.execute kwargs with
      | .error e => ([⟨i, kwargs, ctx, outs⟩], ctx, outs, some e)
      | .ok v =>
        let ctx2 :=
          if step.output_key = "" then ctx else dinsert ctx step.output_key v
        let outs2 :=
          if step.output_key = "" then outs
          else dinsert outs ("step_" ++ toString (i + 1)) v
        let r := runSteps lm rest (i + 1) ctx2 outs2
        (⟨i, kwargs, ctx, outs⟩ :: r.1, r.2)

/-- Agent._execute_plan (agent.py lines 164-235).  The execution context
is reset to empty at the start (line 174).  The whole loop and the
summary query run inside one `try`: any exception (a step raising, or
the summary `lf.query` raising) lands in the handler of lines 225-235,
which returns a failed Result carrying the partial outputs, `str(e)`,
and metadata `goal` and `completed_steps = len(outputs)`.  On the
success path (lines 215-223) the Result carries the summary, all
outputs, `error=''` (the empty string, not None) and metadata `goal`
and `num_steps`. -/
def executePlan (lm : Val)
    (summarizer : String → List (String × Val) → Except String String)
    (p : Plan) : Result :=
  let r := runSteps lm p.steps 0 [] []
  let outs := r.2.2.1
  match r.2.2.2 with
  | some e =>
    { summary := Val.str "Plan execution failed", raw_outputs := outs,
      error := some e,
      metadata := [("goal", Val.str p.goal),
                   ("completed_steps", Val.nat outs.length)] }
  | none =>
    match summarizer p.goal outs with
    | .error e =>
      { summary := Val.str "Plan execution failed", raw_outputs := outs,
        error := some e,
        metadata := [("goal", Val.str p.goal),
                     ("completed_steps", Val.nat outs.length)] }
    | .ok s =>
      { summary := Val.str s, raw_outputs := outs, error := some "",
        metadata := [("goal", Val.str p.goal),
                     ("num_steps", Val.nat p.steps.length)] }

/-- UserRequest (src/core/request.py). -/
structure UserRequest where
  raw_text : String
  goal : String
  subtasks : List String
  constraintsList : List String

/-- Agent.process_request (agent.py lines 26-64).  The collaborators are
explicit: `parser` embodies `Request.from_text` (an LLM call that may
raise), `planner` embodies `_generate_plan` (LLM call plus action
resolution, which may raise `ValueError` on an unknown action name),
and the judge and summarizer are threaded to `validate` and
`_execute_plan`.  The body is one `try`: any exception from parser or
planner is caught at lines 57-64 and wrapped into a failed Result with
`error = str(e)`; a validation failure returns the Result of lines
47-52; otherwise `_execute_plan` (which never raises, having its own
handler) produces the Result. -/
def processRequest (request : String)
    (parser : String → Except String UserRequest)
    (planner : UserRequest → Except String Plan)
    (registry : List String)
    (judge : String → Except String String)
    (lm : Val)
    (summarizer : String → List (String × Val) → Except String String) :
    Result :=
  match parser request with
  | .error e =>
    { summary := Val.str "Request processing failed", raw_outputs := [],
      error := some e, metadata := [("request", Val.str request)] }
  | .ok req =>
    match planner req with
    | .error e =>
      { summary := Val.str "Request processing failed", raw_outputs := [],
        error := some e, metadata := [("request", Val.str request)] }
    | .ok plan =>
      let v := Plan.validate plan registry judge
      if v.1 then executePlan lm summarizer plan
      else
        { summary := Val.str "Plan validation failed", raw_outputs := [],
          error := some v.2, metadata := [("request", Val.str req.goal)] }

/-- Name chosen by `register_action` (action.py line 23):
`name or cls.__name__`, where Python treats the empty string like
`None`. -/
def chosenActionName (name : Option String) (clsName : String) : String :=
  match name with
  | some s => if s = "" then clsName else s
  | none => clsName

/-- register_action (action.py lines 13-28): raise on a name already in
the registry, otherwise add exactly the one binding (the registry is
modelled as the insertion-ordered dict it is, classes by their
names). -/
def registerAction (name : Option String) (clsName : String)
    (reg : List (String × String)) : Except String (List (String × String)) :=
  let actionName := chosenActionName name clsName
  if dget reg actionName ≠ none then
    .error ("Action " ++ actionName ++ " already registered")
  else .ok (reg ++ [(actionName, clsName)])

/-- Registry lookup as performed at use sites (`actions[action_name]`,
agent.py line 128): a `KeyError` for an absent name, the stored class
otherwise. -/
def lookupAction (reg : List (String × String)) (n : String) :
    Except String String :=
  match dget reg n with
  | some cls => .ok cls
  | none => .error (quoted n)

/-- Heap of dict objects for the aliasing claim about
`get_registered_actions`: an address is an index, the global
`_ACTION_REGISTRY` lives at address 0. -/
abbrev Heap := List (List (String × String))

/-- get_registered_actions (action.py lines 30-32): returns
`_ACTION_REGISTRY.copy()`, i.e. allocates a fresh dict object holding
the same entries and returns its address. -/
def getRegisteredActions (h : Heap) : Nat × Heap :=
  (h.length, h ++ [h.getD 0 []])

/-- Mutations a caller can apply to a dict it holds. -/
inductive DictMut where
  | set : String → String → DictMut
  | del : String → DictMut
  | clear : DictMut

/-- Apply one mutation to a dict value. -/
def applyMut (r : List (String × String)) : DictMut → List (String × String)
  | .set k v => dinsert r k v
  | .del k => r.filter (fun kv => kv.1 ≠ k)
  | .clear => []

/-- Apply one mutation to the dict object at address `a`. -/
def heapWrite (h : Heap) (a : Nat) (m : DictMut) : Heap :=
  h.set a (applyMut (h.getD a []) m)

/-- Apply a sequence of mutations to the dict object at address `a`. -/
def heapWriteAll (h : Heap) (a : Nat) : List DictMut → Heap
  | [] => h
  | m :: ms => heapWriteAll (heapWrite h a m) a ms

/-! Concrete fixtures used by closed theorems and witnesses. -/

/-- An Echo action that ignores its mapped inputs and returns a fixed
value (the `Echo("a")` of the round-trip scenario). -/
def echoConst (v : Val) : ActionObj :=
  { clsName := "Echo", runParams := ["lm"], run := fun _ => .ok v }

/-- An Echo action that returns its `text` parameter unchanged. -/
def echoInput : ActionObj :=
  { clsName := "Echo", runParams := ["text", "lm"],
    run := fun kw =>
      match dget kw "text" with
      | some v => .ok v
      | none => .error "missing text" }

/-- An action whose `run` raises. -/
def failingAction (msg : String) : ActionObj :=
  { clsName := "Boom", runParams := ["lm"], run := fun _ => .error msg }

/-- Round-trip plan: step 1 produces "a" under key "x", step 2 echoes
the value mapped from "x" under key "y". -/
def roundTripPlan : Plan :=
  { goal := "G",
    steps := [
      { action := echoConst (Val.str "a"), description := "produce a",
        input_mapping := [], output_key := "x" },
      { action := echoInput, description := "echo x",
        input_mapping := [("text", "x")], output_key := "y" }] }

/-- A summarizer that always succeeds. -/
def okSummarizer : String → List (String × Val) → Except String String :=
  fun _ _ => .ok "done"

/-- A judge that always answers Yes. -/
def yesJudge : String → Except String String :=
  fun _ => .ok "Yes"

/-- Step that completes but stores no output key. -/
def pfStep1 : PlanStep :=
  { action := echoConst (Val.str "a"), description := "no key",
    input_mapping := [], output_key := "" }

/-- Step that completes and stores "x". -/
def pfStep2 : PlanStep :=
  { action := echoConst (Val.str "b"), description := "produce b",
    input_mapping := [], output_key := "x" }

/-- Step that raises. -/
def pfStep3 : PlanStep :=
  { action := failingAction "boom", description := "fail",
    input_mapping := [], output_key := "z" }

/-- Three-step plan for the partial-failure claims: step 1 completes but
stores no output key, step 2 completes and stores "x", step 3 raises. -/
def partialFailPlan : Plan :=
  { goal := "g", steps := [pfStep1, pfStep2, pfStep3] }

/-- One-step plan whose only step maps its input from a key nothing
produced. -/
def badRefStep : PlanStep :=
  { action := echoInput, description := "echo",
    input_mapping := [("text", "x")], output_key := "y" }

/-- Plan wrapping `badRefStep`. -/
def badRefPlan : Plan :=
  { goal := "g", steps := [badRefStep] }

/-- First of two steps sharing the output key "x". -/
def dupStep1 : PlanStep :=
  { action := echoConst (Val.str "a"), description := "first x",
    input_mapping := [], output_key := "x" }

/-- Second of two steps sharing the output key "x". -/
def dupStep2 : PlanStep :=
  { action := echoConst (Val.str "b"), description := "second x",
    input_mapping := [], output_key := "x" }

/-- Plan with a duplicate output key. -/
def dupPlan : Plan :=
  { goal := "g", steps := [dupStep1, dupStep2] }

/-- Output keys contributed by a list of steps, in order; a step with an
empty `output_key` contributes nothing (plan.py line 77). -/
def outKeys : List PlanStep → List String
  | [] => []
  | s :: rest =>
    (if s.output_key = "" then [] else [s.output_key]) ++ outKeys rest

/-- Evolution of `available_outputs` over one step. -/
def nextAvail (avail : List String) (s : PlanStep) : List String :=
  if s.output_key = "" then avail else avail ++ [s.output_key]

/-- Evolution of `available_outputs` over a list of steps. -/
def availAfter (avail : List String) (l : List PlanStep) : List String :=
  l.foldl nextAvail avail

/-- One execution context extends another by appending entries whose
keys are all absent from the original: nothing is removed or
overwritten. -/
def CtxExtends (c1 c2 : List (String × Val)) : Prop :=
  ∃ t, c2 = c1 ++ t ∧ ∀ kv ∈ t, dget c1 kv.1 = none

/-- The successive execution contexts of one run: the context as each
action invocation saw it, then the final context. -/
def ctxChain
    (r : List StepTrace × List (String × Val) × List (String × Val) ×
      Option String) : List (List (String × Val)) :=
  r.1.map (fun t => t.ctxBefore) ++ [r.2.1]

/-! Dictionary lemmas. -/

theorem dget_eq_none_iff {α : Type} (m : List (String × α)) (k : String) :
    dget m k = none ↔ k ∉ keysOf m := by
  induction m with
  | nil => simp [dget, keysOf]
  | cons kv rest ih =>
    obtain ⟨k0, v0⟩ := kv
    by_cases h : k0 = k
    · subst h; simp [dget, keysOf]
    · have h2 : ¬k = k0 := fun hh => h hh.symm
      simp [dget, keysOf, h, h2, ih]

theorem dinsert_eq_append {α : Type} (m : List (String × α)) (k : String) (v : α)
    (h : dget m k = none) : dinsert m k v = m ++ [(k, v)] := by
  induction m with
  | nil => simp [dinsert]
  | cons kv rest ih =>
    obtain ⟨k0, v0⟩ := kv
    by_cases hk : k0 = k
    · simp [dget, hk] at h
    · simp only [dget, hk, if_false] at h
      simp [dinsert, hk, ih h]

theorem keysOf_append {α : Type} (a b : List (String × α)) :
    keysOf (a ++ b) = keysOf a ++ keysOf b := by
  simp [keysOf]

/-! Output-key bookkeeping of the validator walk. -/

theorem outKeys_append (a b : List PlanStep) :
    outKeys (a ++ b) = outKeys a ++ outKeys b := by
  induction a with
  | nil => rfl
  | cons s rest ih => simp [outKeys, ih]

theorem availAfter_eq (l : List PlanStep) :
    ∀ avail, availAfter avail l = avail ++ outKeys l := by
  induction l with
  | nil => intro avail; simp [availAfter, outKeys]
  | cons s rest ih =>
    intro avail
    have h1 : availAfter avail (s :: rest) = availAfter (nextAvail avail s) rest := rfl
    rw [h1, ih]
    have h2 : outKeys (s :: rest) =
        (if s.output_key = "" then [] else [s.output_key]) ++ outKeys rest := rfl
    rw [h2]
    unfold nextAvail
    by_cases h : s.output_key = "" <;> simp [h]

/-! Structure of the validator walk. -/

theorem validateSteps_cons (reg : List String) (s : PlanStep)
    (rest : List PlanStep) (i : Nat) (avail : List String) :
    validateSteps reg i avail (s :: rest) =
      (if s.action.clsName ∉ reg then some (unknownActionMsg i s.action.clsName)
       else
         match findBadSource s.input_mapping avail with
         | some pr => some (badSourceMsg i s.action.clsName pr.1 pr.2)
         | none =>
           if s.output_key = "" then validateSteps reg (i + 1) avail rest
           else if s.output_key ∈ avail then
             some (dupKeyMsg i s.action.clsName s.output_key)
           else validateSteps reg (i + 1) (avail ++ [s.output_key]) rest) := rfl

theorem validateSteps_append (reg : List String) (pre : List PlanStep) :
    ∀ (rest : List PlanStep) (i : Nat) (avail : List String),
    validateSteps reg i avail (pre ++ rest) =
      (match validateSteps reg i avail pre with
       | some msg => some msg
       | none =>
         validateSteps reg (i + pre.length) (availAfter avail pre) rest) := by
  induction pre with
  | nil =>
    intro rest i avail
    simp [validateSteps, availAfter]
  | cons s pre ih =>
    intro rest i avail
    rw [List.cons_append, validateSteps_cons, validateSteps_cons]
    have hlen : ∀ av, validateSteps reg (i + 1) av (pre ++ rest) =
        (match validateSteps reg (i + 1) av pre with
         | some msg => some msg
         | none =>
           validateSteps reg (i + (s :: pre).length) (availAfter av pre) rest) := by
      intro av
      rw [ih rest (i + 1) av]
      have h3 : i + 1 + pre.length = i + (s :: pre).length := by
        rw [List.length_cons]; omega
      rw [h3]
    by_cases hc : s.action.clsName ∉ reg
    · simp [hc]
    · simp only [hc, if_false]
      cases hfb : findBadSource s.input_mapping avail with
      | some pr => simp
      | none =>
        by_cases hk : s.output_key = ""
        · have hav : availAfter avail (s :: pre) = availAfter avail pre := by
            simp [availAfter, nextAvail, hk]
          simp only [hk, if_true, hlen, hav]
        · by_cases hmem : s.output_key ∈ avail
          · simp [hk, hmem]
          · have hav : availAfter avail (s :: pre) =
                availAfter (avail ++ [s.output_key]) pre := by
              simp [availAfter, nextAvail, hk]
            simp only [hk, if_false, hmem, hlen, hav]

theorem validateSteps_append_ne_none (reg : List String)
    (pre rest : List PlanStep) (i : Nat) (avail : List String)
    (h : validateSteps reg (i + pre.length) (availAfter avail pre) rest ≠ none) :
    validateSteps reg i avail (pre ++ rest) ≠ none := by
  rw [validateSteps_append]
  cases hp : validateSteps reg i avail pre with
  | some msg => simp
  | none => simpa using h

theorem validateSteps_append_of_none (reg : List String)
    (pre rest : List PlanStep) (i : Nat) (avail : List String)
    (h : validateSteps reg i avail pre = none) :
    validateSteps reg i avail (pre ++ rest) =
      validateSteps reg (i + pre.length) (availAfter avail pre) rest := by
  rw [validateSteps_append, h]

theorem findBadSource_ne_none (mapping : List (String × String))
    (avail : List String) (param source : String)
    (hmem : (param, source) ∈ mapping) (hbad : source ∉ avail) :
    findBadSource mapping avail ≠ none := by
  induction mapping with
  | nil => simp at hmem
  | cons pr rest ih =>
    obtain ⟨p0, s0⟩ := pr
    show (if s0 ∈ avail then findBadSource rest avail else some (p0, s0)) ≠ none
    by_cases h0 : s0 ∈ avail
    · rcases List.mem_cons.mp hmem with heq | hmem2
      · obtain ⟨hp, hs⟩ := Prod.mk.injEq .. ▸ heq
        exact absurd (hs ▸ h0) hbad
      · simpa [h0] using ih hmem2
    · simp [h0]

theorem validateSteps_head_badref (reg : List String) (s : PlanStep)
    (post : List PlanStep) (i : Nat) (avail : List String)
    (param source : String)
    (hmem : (param, source) ∈ s.input_mapping) (hbad : source ∉ avail) :
    validateSteps reg i avail (s :: post) ≠ none := by
  rw [validateSteps_cons]
  by_cases hc : s.action.clsName ∉ reg
  · simp [hc]
  · simp only [hc, if_false]
    cases hfb : findBadSource s.input_mapping avail with
    | some pr => simp
    | none =>
      exact absurd hfb (findBadSource_ne_none s.input_mapping avail param source hmem hbad)

theorem validateSteps_head_dup (reg : List String) (s : PlanStep)
    (post : List PlanStep) (i : Nat) (avail : List String)
    (hne : s.output_key ≠ "") (hmem : s.output_key ∈ avail) :
    validateSteps reg i avail (s :: post) ≠ none := by
  rw [validateSteps_cons]
  by_cases hc : s.action.clsName ∉ reg
  · simp [hc]
  · simp only [hc, if_false]
    cases hfb : findBadSource s.input_mapping avail with
    | some pr => simp
    | none => simp [hne, hmem]

theorem validateSteps_head_fresh (reg : List String) (s : PlanStep)
    (post : List PlanStep) (i : Nat) (avail : List String)
    (h : validateSteps reg i avail (s :: post) = none)
    (hne : s.output_key ≠ "") :
    s.output_key ∉ avail :=
  fun hmem => validateSteps_head_dup reg s post i avail hne hmem h

theorem validateSteps_head_badref_msg (reg : List String) (s : PlanStep)
    (post : List PlanStep) (i : Nat) (avail : List String)
    (param source : String)
    (hreg : s.action.clsName ∈ reg)
    (hfb : findBadSource s.input_mapping avail = some (param, source)) :
    validateSteps reg i avail (s :: post) =
      some (badSourceMsg i s.action.clsName param source) := by
  rw [validateSteps_cons]
  simp [hreg, hfb]

/-! Glue between the walk and `Plan.validate`. -/

theorem validate_fst_false_of_steps (p : Plan) (reg : List String)
    (lm : String → Except String String)
    (h : validateSteps reg 0 [] p.steps ≠ none) :
    (Plan.validate p reg lm).1 = false := by
  unfold Plan.validate
  by_cases he : p.steps.isEmpty
  · simp [he]
  · simp only [he, Bool.false_eq_true, if_false]
    cases hv : validateSteps reg 0 [] p.steps with
    | none => exact absurd hv h
    | some msg => simp

theorem validate_eq_of_steps_some (p : Plan) (reg : List String)
    (lm : String → Except String String) (msg : String)
    (h : validateSteps reg 0 [] p.steps = some msg) :
    Plan.validate p reg lm = (false, msg) := by
  unfold Plan.validate
  have he : p.steps.isEmpty = false := by
    cases hs : p.steps with
    | nil => rw [hs] at h; simp [validateSteps] at h
    | cons a l => simp [hs]
  simp [he, h]

theorem validate_fst_true_structural (p : Plan) (reg : List String)
    (lm : String → Except String String)
    (h : (Plan.validate p reg lm).1 = true) :
    validateSteps reg 0 [] p.steps = none := by
  by_contra hne
  rw [validate_fst_false_of_steps p reg lm hne] at h
  simp at h

theorem badSourceMsg_decompose (i : Nat) (cname param source : String) :
    ∃ a b c d, badSourceMsg i cname param source = a ++ toString (i + 1) ++ b ∧
      badSourceMsg i cname param source = c ++ source ++ d := by
  refine ⟨"Plan Validation Failed: Step ",
    (" (" ++ quoted cname ++ ") requires input " ++ quoted param ++
        " from source " ++ "\x27") ++
      (source ++
        ("\x27" ++ ", which is not available from previous steps.")),
    "Plan Validation Failed: Step " ++ toString (i + 1) ++
      (" (" ++ quoted cname ++ ") requires input " ++ quoted param ++
        " from source " ++ "\x27"),
    "\x27" ++ ", which is not available from previous steps.", ?_, ?_⟩
  · show ((_ ++ _) ++ source) ++ _ = _
    rw [String.append_assoc, String.append_assoc]
  · rfl

/-- C3: for every plan in which some step references, in its
`input_mapping`, an output key that no strictly earlier step produces
(the earlier steps being `pre`), `Plan.validate` returns not-ok; and
when the structural walk reaches that step (the earlier steps pass
their checks, the action is registered, and this entry is the first
offending one), the failure message contains the 1-based step number
and the offending source key as substrings. -/
theorem validate_rejects_forward_reference
    (p : Plan) (reg : List String) (lm : String → Except String String)
    (pre post : List PlanStep) (s : PlanStep) (param source : String)
    (hsplit : p.steps = pre ++ s :: post)
    (hmem : (param, source) ∈ s.input_mapping)
    (hbad : source ∉ outKeys pre) :
    (Plan.validate p reg lm).1 = false ∧
    (validateSteps reg 0 [] pre = none →
      s.action.clsName ∈ reg →
      findBadSource s.input_mapping (outKeys pre) = some (param, source) →
      ∃ a b c d,
        (Plan.validate p reg lm).2 = a ++ toString (pre.length + 1) ++ b ∧
        (Plan.validate p reg lm).2 = c ++ source ++ d) := by
  have havail : availAfter [] pre = outKeys pre := by
    rw [availAfter_eq]; simp
  constructor
  · apply validate_fst_false_of_steps
    rw [hsplit]
    apply validateSteps_append_ne_none
    rw [havail]
    exact validateSteps_head_badref reg s post (0 + pre.length) (outKeys pre)
      param source hmem hbad
  · intro hpre hreg hfb
    have hsteps : validateSteps reg 0 [] p.steps =
        some (badSourceMsg pre.length s.action.clsName param source) := by
      rw [hsplit, validateSteps_append_of_none reg pre (s :: post) 0 [] hpre,
        havail, Nat.zero_add]
      exact validateSteps_head_badref_msg reg s post pre.length
        (outKeys pre) param source hreg hfb
    rw [validate_eq_of_steps_some p reg lm _ hsteps]
    exact badSourceMsg_decompose pre.length s.action.clsName param source

/-- C4: validate rejects every plan in which two steps share the same
non-empty output key, and rejects the empty-steps plan with the
"no steps" message. -/
theorem validate_rejects_duplicate_and_empty
    (p : Plan) (reg : List String) (lm : String → Except String String)
    (pre mid post : List PlanStep) (s1 s2 : PlanStep)
    (hsplit : p.steps = pre ++ s1 :: mid ++ s2 :: post)
    (hkey : s1.output_key = s2.output_key) (hne : s2.output_key ≠ "") :
    (Plan.validate p reg lm).1 = false ∧
    ∀ (g : String) (reg2 : List String) (lm2 : String → Except String String),
      Plan.validate { goal := g, steps := [] } reg2 lm2 =
        (false, "Plan Validation Failed: Plan has no steps.") := by
  constructor
  · apply validate_fst_false_of_steps
    have hsplit2 : p.steps = (pre ++ s1 :: mid) ++ s2 :: post := by
      rw [hsplit]
    rw [hsplit2]
    apply validateSteps_append_ne_none
    apply validateSteps_head_dup reg s2 post _ _ hne
    rw [availAfter_eq]
    simp only [List.nil_append, outKeys_append, List.mem_append]
    right
    have : outKeys (s1 :: mid) =
        (if s1.output_key = "" then [] else [s1.output_key]) ++ outKeys mid := rfl
    rw [this, hkey]
    simp [hne]
  · intro g reg2 lm2
    rfl

/-- C5: validate is deterministic and idempotent across repeated calls
with the same inputs, and leaves the plan and the registry unchanged:
the state-passing form returns the input plan and registry, and a
second call on that returned state yields the identical (ok, message)
pair. -/
theorem validate_idempotent_no_mutation (p : Plan) (reg : List String)
    (lm : String → Except String String) :
    (Plan.validateS p reg lm).2.1 = p ∧
    (Plan.validateS p reg lm).2.2 = reg ∧
    (Plan.validateS (Plan.validateS p reg lm).2.1
        (Plan.validateS p reg lm).2.2 lm).1 =
      (Plan.validateS p reg lm).1 :=
  ⟨rfl, rfl, rfl⟩

/-! Structure of the executor loop. -/

theorem runSteps_cons (lm : Val) (s : PlanStep) (rest : List PlanStep)
    (i : Nat) (ctx outs : List (String × Val)) :
    runSteps lm (s :: rest) i ctx outs =
      (match mapInputs ctx s.input_mapping [] with
       | .error e => ([], ctx, outs, some e)
       | .ok inputs =>
         match s.action.execute (dinsert inputs "lm" lm) with
         | .error e =>
           ([⟨i, dinsert inputs "lm" lm, ctx, outs⟩], ctx, outs, some e)
         | .ok v =>
           (⟨i, dinsert inputs "lm" lm, ctx, outs⟩ ::
              (runSteps lm rest (i + 1)
                (if s.output_key = "" then ctx else dinsert ctx s.output_key v)
                (if s.output_key = "" then outs
                 else dinsert outs ("step_" ++ toString (i + 1)) v)).1,
            (runSteps lm rest (i + 1)
                (if s.output_key = "" then ctx else dinsert ctx s.output_key v)
                (if s.output_key = "" then outs
                 else dinsert outs ("step_" ++ toString (i + 1)) v)).2)) := rfl

theorem runSteps_append_of_ok (lm : Val) :
    ∀ (l1 l2 : List PlanStep) (i : Nat) (ctx outs : List (String × Val))
      (t : List StepTrace) (c o : List (String × Val)),
    runSteps lm l1 i ctx outs = (t, c, o, none) →
    runSteps lm (l1 ++ l2) i ctx outs =
      (t ++ (runSteps lm l2 (i + l1.length) c o).1,
        (runSteps lm l2 (i + l1.length) c o).2) := by
  intro l1
  induction l1 with
  | nil =>
    intro l2 i ctx outs t c o h
    obtain ⟨ht, hc, ho, _⟩ : ([] : List StepTrace) = t ∧ ctx = c ∧ outs = o ∧
        (none : Option String) = none := by
      simpa [runSteps, Prod.ext_iff] using h
    subst ht; subst hc; subst ho
    simp
  | cons s l1 ih =>
    intro l2 i ctx outs t c o h
    rw [runSteps_cons] at h
    rw [List.cons_append, runSteps_cons]
    cases hmi : mapInputs ctx s.input_mapping [] with
    | error e => simp only [hmi] at h; simp [Prod.ext_iff] at h
    | ok inputs =>
      simp only [hmi] at h ⊢
      cases hex : s.action.execute (dinsert inputs "lm" lm) with
      | error e => simp only [hex] at h; simp [Prod.ext_iff] at h
      | ok v =>
        simp only [hex] at h ⊢
        obtain ⟨ht, hc, ho, he⟩ :
            (⟨i, dinsert inputs "lm" lm, ctx, outs⟩ : StepTrace) ::
                (runSteps lm l1 (i + 1)
                  (if s.output_key = "" then ctx else dinsert ctx s.output_key v)
                  (if s.output_key = "" then outs
                   else dinsert outs ("step_" ++ toString (i + 1)) v)).1 = t ∧
              (runSteps lm l1 (i + 1) _ _).2.1 = c ∧
              (runSteps lm l1 (i + 1) _ _).2.2.1 = o ∧
              (runSteps lm l1 (i + 1) _ _).2.2.2 = none := by
          simpa [Prod.ext_iff] using h
        have hihyp : runSteps lm l1 (i + 1)
            (if s.output_key = "" then ctx else dinsert ctx s.output_key v)
            (if s.output_key = "" then outs
             else dinsert outs ("step_" ++ toString (i + 1)) v) =
            ((runSteps lm l1 (i + 1)
              (if s.output_key = "" then ctx else dinsert ctx s.output_key v)
              (if s.output_key = "" then outs
               else dinsert outs ("step_" ++ toString (i + 1)) v)).1,
              c, o, none) := by
          rw [← hc, ← ho, ← he]
        rw [ih l2 (i + 1) _ _ _ c o hihyp]
        have hidx : i + 1 + l1.length = i + (s :: l1).length := by
          rw [List.length_cons]; omega
        rw [hidx, ← ht]
        simp

theorem executePlan_eq_error (lm : Val)
    (summ : String → List (String × Val) → Except String String)
    (p : Plan) (e : String)
    (h : (runSteps lm p.steps 0 [] []).2.2.2 = some e) :
    executePlan lm summ p =
      { summary := Val.str "Plan execution failed",
        raw_outputs := (runSteps lm p.steps 0 [] []).2.2.1,
        error := some e,
        metadata := [("goal", Val.str p.goal),
          ("completed_steps",
            Val.nat (runSteps lm p.steps 0 [] []).2.2.1.length)] } := by
  simp [executePlan, h]

theorem executePlan_eq_success (lm : Val)
    (summ : String → List (String × Val) → Except String String)
    (p : Plan) (s : String)
    (hok : (runSteps lm p.steps 0 [] []).2.2.2 = none)
    (hsum : summ p.goal (runSteps lm p.steps 0 [] []).2.2.1 = .ok s) :
    executePlan lm summ p =
      { summary := Val.str s,
        raw_outputs := (runSteps lm p.steps 0 [] []).2.2.1,
        error := some "",
        metadata := [("goal", Val.str p.goal),
          ("num_steps", Val.nat p.steps.length)] } := by
  simp [executePlan, hok, hsum]

/-- C1 (code bug): when every step of the plan executes without error
and the summary query succeeds, `_execute_plan` constructs the Result
with `error=''` (agent.py line 218); since `Result.success` tests
`error is None` (result.py line 20), the returned Result has its error
present (the empty string) and its success flag False, against the
stated derivation "success: error is absent" for a run in which
nothing failed.  `raw_outputs` does hold each output-keyed step under
`"step_N"`. -/
theorem successful_execution_has_empty_string_error (lm : Val)
    (summ : String → List (String × Val) → Except String String)
    (p : Plan) (s : String)
    (hok : (runSteps lm p.steps 0 [] []).2.2.2 = none)
    (hsum : summ p.goal (runSteps lm p.steps 0 [] []).2.2.1 = .ok s) :
    (executePlan lm summ p).raw_outputs =
      (runSteps lm p.steps 0 [] []).2.2.1 ∧
    (executePlan lm summ p).error = some "" ∧
    (executePlan lm summ p).success = false := by
  rw [executePlan_eq_success lm summ p s hok hsum]
  exact ⟨rfl, rfl, rfl⟩

/-- C1 witness: the two-step Echo round-trip plan executes fully,
`raw_outputs` is step_1 and step_2 both "a", and yet the Result carries
`error = some ""` and `success = false`. -/
theorem successful_execution_has_empty_string_error_witness :
    (runSteps (Val.str "the-lm") roundTripPlan.steps 0 [] []).2.2.2 = none ∧
    okSummarizer roundTripPlan.goal
      (runSteps (Val.str "the-lm") roundTripPlan.steps 0 [] []).2.2.1 =
        .ok "done" ∧
    (runSteps (Val.str "the-lm") roundTripPlan.steps 0 [] []).2.2.1 =
      [("step_1", Val.str "a"), ("step_2", Val.str "a")] ∧
    ((executePlan (Val.str "the-lm") okSummarizer roundTripPlan).raw_outputs =
        (runSteps (Val.str "the-lm") roundTripPlan.steps 0 [] []).2.2.1 ∧
      (executePlan (Val.str "the-lm") okSummarizer roundTripPlan).error =
        some "" ∧
      (executePlan (Val.str "the-lm") okSummarizer roundTripPlan).success =
        false) :=
  ⟨by decide, by rfl, by decide,
    successful_execution_has_empty_string_error (Val.str "the-lm")
      okSummarizer roundTripPlan "done" (by decide) (by rfl)⟩

/-- C2 counterexample: in `partialFailPlan`, steps 1 and 2 execute
successfully (three action invocations occur, the third raising), yet
the failed Result's metadata is exactly the two entries goal and
completed_steps = 1: it carries no entry recording the failing step
index (step 3, 0-based 2), and completed_steps counts the one
output-keyed completed step, not the two steps that completed. -/
theorem failure_metadata_lacks_failed_step_index :
    (executePlan (Val.str "L") okSummarizer partialFailPlan).metadata =
      [("goal", Val.str "g"), ("completed_steps", Val.nat 1)] ∧
    (executePlan (Val.str "L") okSummarizer partialFailPlan).error =
      some "boom" ∧
    (executePlan (Val.str "L") okSummarizer partialFailPlan).raw_outputs =
      [("step_2", Val.str "b")] ∧
    (runSteps (Val.str "L") partialFailPlan.steps 0 [] []).1.length = 3 :=
  ⟨by decide, by decide, by decide, by decide⟩

/-- C2 (amended): when the steps before `s` all execute without raising
(producing context `c0` and partial outputs `o0`) and `s` raises `e`,
execution stops at `s` (the invocation trace is the prior trace plus
the one call into `s`; no later step runs), and `_execute_plan` returns
a failed Result carrying the partial `raw_outputs` `o0`, the error
string `e`, and metadata recording the goal and
`completed_steps = len(o0)` (the number of completed output-keyed
steps); no metadata entry records the failing step index. -/
theorem executePlan_failure_partial_outputs (lm : Val)
    (summ : String → List (String × Val) → Except String String)
    (p : Plan) (pre post : List PlanStep) (s : PlanStep)
    (t0 : List StepTrace) (c0 o0 ins : List (String × Val)) (e : String)
    (hsplit : p.steps = pre ++ s :: post)
    (hpre : runSteps lm pre 0 [] [] = (t0, c0, o0, none))
    (hins : mapInputs c0 s.input_mapping [] = .ok ins)
    (herr : s.action.execute (dinsert ins "lm" lm) = .error e) :
    runSteps lm p.steps 0 [] [] =
      (t0 ++ [⟨pre.length, dinsert ins "lm" lm, c0, o0⟩], c0, o0, some e) ∧
    executePlan lm summ p =
      { summary := Val.str "Plan execution failed", raw_outputs := o0,
        error := some e,
        metadata := [("goal", Val.str p.goal),
          ("completed_steps", Val.nat o0.length)] } := by
  have hrun : runSteps lm p.steps 0 [] [] =
      (t0 ++ [⟨pre.length, dinsert ins "lm" lm, c0, o0⟩], c0, o0, some e) := by
    rw [hsplit,
      runSteps_append_of_ok lm pre (s :: post) 0 [] [] t0 c0 o0 hpre,
      runSteps_cons]
    simp only [hins, herr, Nat.zero_add]
  refine ⟨hrun, ?_⟩
  rw [executePlan_eq_error lm summ p e (by rw [hrun])]
  rw [hrun]

/-- C2 witness: the amended statement instantiated on
`partialFailPlan`. -/
theorem executePlan_failure_partial_outputs_witness :
    partialFailPlan.steps = [pfStep1, pfStep2] ++ pfStep3 :: [] ∧
    runSteps (Val.str "L") [pfStep1, pfStep2] 0 [] [] =
      ([⟨0, [("lm", Val.str "L")], [], []⟩, ⟨1, [("lm", Val.str "L")], [], []⟩],
        [("x", Val.str "b")], [("step_2", Val.str "b")], none) ∧
    mapInputs [("x", Val.str "b")] pfStep3.input_mapping [] = .ok [] ∧
    pfStep3.action.execute (dinsert [] "lm" (Val.str "L")) = .error "boom" ∧
    executePlan (Val.str "L") okSummarizer partialFailPlan =
      { summary := Val.str "Plan execution failed",
        raw_outputs := [("step_2", Val.str "b")], error := some "boom",
        metadata := [("goal", Val.str "g"),
          ("completed_steps", Val.nat 1)] } :=
  ⟨rfl, rfl, rfl, rfl,
    (executePlan_failure_partial_outputs (Val.str "L") okSummarizer
      partialFailPlan [pfStep1, pfStep2] [] pfStep3
      [⟨0, [("lm", Val.str "L")], [], []⟩, ⟨1, [("lm", Val.str "L")], [], []⟩]
      [("x", Val.str "b")] [("step_2", Val.str "b")] [] "boom"
      rfl rfl rfl rfl).2⟩

/-- C6: in a two-step plan where step 1 stores its result under key `k`
and step 2 maps its parameter `p` from `k`, the executor records
`raw_outputs["step_1"]` before step 2 runs ("step_2" does not yet
exist in the outputs step 2 sees), and the value bound for `p` — both
in the keyword arguments built by the executor and in the filtered
arguments the action's `run` receives — is exactly the value step 1
produced. -/
theorem executor_orders_and_threads_exact_value
    (a1 a2 : ActionObj) (d1 d2 k p ok2 : String) (v lm : Val)
    (hk : k ≠ "") (hp : p ≠ "lm")
    (hex1 : a1.execute (dinsert [] "lm" lm) = .ok v) :
    ∃ t1 t2,
      (runSteps lm
        [⟨a1, d1, [], k⟩, ⟨a2, d2, [(p, k)], ok2⟩] 0 [] []).1 = [t1, t2] ∧
      dget t2.outputsBefore "step_1" = some v ∧
      dget t2.outputsBefore "step_2" = none ∧
      dget t2.kwargs p = some v ∧
      (p ∈ a2.runParams →
        dget (t2.kwargs.filter (fun kv => kv.1 ∈ a2.runParams)) p = some v) := by
  have hmi1 : mapInputs ([] : List (String × Val))
      ([] : List (String × String)) [] = .ok [] := rfl
  have hmi2 : mapInputs [(k, v)] [(p, k)] [] = .ok [(p, v)] := by
    simp [mapInputs, dget, dinsert]
  have hkw2 : dinsert [(p, v)] "lm" lm = [(p, v), ("lm", lm)] := by
    simp [dinsert, hp]
  have hstep1 : ("step_" ++ toString (0 + 1) : String) = "step_1" := by decide
  refine ⟨⟨0, dinsert [] "lm" lm, [], []⟩,
    ⟨1, [(p, v), ("lm", lm)], [(k, v)], [("step_1", v)]⟩, ?_, ?_, ?_, ?_, ?_⟩
  · rw [runSteps_cons]
    have hctx : (if k = "" then ([] : List (String × Val))
        else dinsert [] k v) = [(k, v)] := by
      simp [hk, dinsert]
    have houts : (if k = "" then ([] : List (String × Val))
        else dinsert [] ("step_" ++ toString (0 + 1)) v) =
          [("step_1", v)] := by
      simp [hk, hstep1, dinsert]
    simp only [hmi1, hex1, hctx, houts]
    rw [runSteps_cons]
    simp only [hmi2, hkw2]
    cases hex2 : a2.execute [(p, v), ("lm", lm)] <;> simp [runSteps]
  · simp [dget]
  · simp [dget]
  · simp [dget]
  · intro hmem
    simp [dget, List.filter, hmem]

/-- C6 witness: the ordering and exact-threading statement instantiated
with a producer of "a" and the input-echoing action. -/
theorem executor_orders_and_threads_exact_value_witness :
    ("x" : String) ≠ "" ∧ ("text" : String) ≠ "lm" ∧
    (echoConst (Val.str "a")).execute (dinsert [] "lm" (Val.str "L")) =
      .ok (Val.str "a") ∧
    (∃ t1 t2,
      (runSteps (Val.str "L")
        [⟨echoConst (Val.str "a"), "produce", [], "x"⟩,
         ⟨echoInput, "echo", [("text", "x")], "y"⟩] 0 [] []).1 = [t1, t2] ∧
      dget t2.outputsBefore "step_1" = some (Val.str "a") ∧
      dget t2.outputsBefore "step_2" = none ∧
      dget t2.kwargs "text" = some (Val.str "a") ∧
      ("text" ∈ echoInput.runParams →
        dget (t2.kwargs.filter (fun kv => kv.1 ∈ echoInput.runParams))
          "text" = some (Val.str "a"))) :=
  ⟨by decide, by decide, by rfl,
    executor_orders_and_threads_exact_value (echoConst (Val.str "a"))
      echoInput "produce" "echo" "x" "text" "y" (Val.str "a") (Val.str "L")
      (by decide) (by decide) (by rfl)⟩

/-! Execution-context monotonicity. -/

theorem ctxExtends_refl (c : List (String × Val)) : CtxExtends c c :=
  ⟨[], by simp, by simp⟩

theorem runSteps_chain (lm : Val) :
    ∀ (steps : List PlanStep) (i : Nat) (ctx outs : List (String × Val)),
    (∀ pre s post, steps = pre ++ s :: post → s.output_key ≠ "" →
      s.output_key ∉ keysOf ctx ++ outKeys pre) →
    List.Chain' CtxExtends (ctxChain (runSteps lm steps i ctx outs)) ∧
    (ctxChain (runSteps lm steps i ctx outs)).head? = some ctx := by
  intro steps
  induction steps with
  | nil =>
    intro i ctx outs h
    exact ⟨by simp [runSteps, ctxChain], by simp [runSteps, ctxChain]⟩
  | cons s rest ih =>
    intro i ctx outs h
    rw [runSteps_cons]
    cases hmi : mapInputs ctx s.input_mapping [] with
    | error e =>
      exact ⟨by simp [ctxChain], by simp [ctxChain]⟩
    | ok inputs =>
      cases hex : s.action.execute (dinsert inputs "lm" lm) with
      | error e =>
        simp only [hex]
        refine ⟨?_, by simp [ctxChain]⟩
        simp only [ctxChain, List.map_cons, List.map_nil, List.nil_append,
          List.cons_append, List.chain'_cons, List.chain'_singleton,
          and_true]
        exact ctxExtends_refl ctx
      | ok v =>
        simp only [hex]
        have hfresh0 : s.output_key ≠ "" → s.output_key ∉ keysOf ctx := by
          intro hne
          have := h [] s rest rfl hne
          simpa [outKeys] using this
        have hctx2 : CtxExtends ctx
            (if s.output_key = "" then ctx else dinsert ctx s.output_key v) := by
          by_cases hkey : s.output_key = ""
          · simpa [hkey] using ctxExtends_refl ctx
          · have hd : dget ctx s.output_key = none :=
              (dget_eq_none_iff ctx s.output_key).mpr (hfresh0 hkey)
            refine ⟨[(s.output_key, v)], ?_, ?_⟩
            · simp [hkey, dinsert_eq_append ctx s.output_key v hd]
            · intro kv hkv
              simp at hkv
              rw [hkv]
              exact hd
        have hkeys2 : keysOf
            (if s.output_key = "" then ctx else dinsert ctx s.output_key v) =
            keysOf ctx ++
              (if s.output_key = "" then [] else [s.output_key]) := by
          by_cases hkey : s.output_key = ""
          · simp [hkey]
          · have hd : dget ctx s.output_key = none :=
              (dget_eq_none_iff ctx s.output_key).mpr (hfresh0 hkey)
            simp [hkey, dinsert_eq_append ctx s.output_key v hd,
              keysOf_append, keysOf]
        have hrest : ∀ pre s2 post2, rest = pre ++ s2 :: post2 →
            s2.output_key ≠ "" →
            s2.output_key ∉ keysOf
              (if s.output_key = "" then ctx else dinsert ctx s.output_key v)
              ++ outKeys pre := by
          intro pre s2 post2 hr hne2
          have h0 := h (s :: pre) s2 post2 (by rw [List.cons_append, hr]) hne2
          have houtk : outKeys (s :: pre) =
              (if s.output_key = "" then [] else [s.output_key]) ++
                outKeys pre := rfl
          rw [houtk] at h0
          rw [hkeys2]
          simp only [List.mem_append, not_or] at h0 ⊢
          tauto
        obtain ⟨hch, hhd⟩ := ih (i + 1)
          (if s.output_key = "" then ctx else dinsert ctx s.output_key v)
          (if s.output_key = "" then outs
           else dinsert outs ("step_" ++ toString (i + 1)) v) hrest
        constructor
        · have hshape : ctxChain
              (⟨i, dinsert inputs "lm" lm, ctx, outs⟩ ::
                  (runSteps lm rest (i + 1)
                    (if s.output_key = "" then ctx
                     else dinsert ctx s.output_key v)
                    (if s.output_key = "" then outs
                     else dinsert outs ("step_" ++ toString (i + 1)) v)).1,
                (runSteps lm rest (i + 1)
                    (if s.output_key = "" then ctx
                     else dinsert ctx s.output_key v)
                    (if s.output_key = "" then outs
                     else dinsert outs ("step_" ++ toString (i + 1)) v)).2) =
              ctx :: ctxChain (runSteps lm rest (i + 1)
                (if s.output_key = "" then ctx
                 else dinsert ctx s.output_key v)
                (if s.output_key = "" then outs
                 else dinsert outs ("step_" ++ toString (i + 1)) v)) := by
            simp [ctxChain]
          rw [hshape, List.chain'_cons']
          refine ⟨?_, hch⟩
          intro y hy
          rw [hhd] at hy
          simp at hy
          rw [← hy]
          exact hctx2
        · simp [ctxChain]

/-- C8: for every plan that validate accepts, the execution context
starts empty and grows monotonically: each successive context the
executor holds extends the previous one by appending entries with
fresh keys only — no key is ever removed or overwritten. -/
theorem execution_context_monotone (p : Plan) (reg : List String)
    (judge : String → Except String String) (lm : Val)
    (hok : (Plan.validate p reg judge).1 = true) :
    (ctxChain (runSteps lm p.steps 0 [] [])).head? = some [] ∧
    List.Chain' CtxExtends (ctxChain (runSteps lm p.steps 0 [] [])) := by
  have hnone := validate_fst_true_structural p reg judge hok
  have hfresh : ∀ pre s post, p.steps = pre ++ s :: post →
      s.output_key ≠ "" →
      s.output_key ∉ keysOf ([] : List (String × Val)) ++ outKeys pre := by
    intro pre s post hsplit hne
    rw [hsplit] at hnone
    cases hp2 : validateSteps reg 0 [] pre with
    | some msg =>
      rw [validateSteps_append, hp2] at hnone
      simp at hnone
    | none =>
      rw [validateSteps_append_of_none reg pre (s :: post) 0 [] hp2] at hnone
      have hh := validateSteps_head_fresh reg s post (0 + pre.length)
        (availAfter [] pre) hnone hne
      rw [availAfter_eq] at hh
      simpa [keysOf] using hh
  obtain ⟨hch, hhd⟩ := runSteps_chain lm p.steps 0 [] [] hfresh
  exact ⟨hhd, hch⟩

/-- C8 witness: the monotonicity statement instantiated on the
round-trip plan, whose validation succeeds with a Yes-judge. -/
theorem execution_context_monotone_witness :
    (Plan.validate roundTripPlan ["Echo"] yesJudge).1 = true ∧
    ((ctxChain (runSteps (Val.str "L") roundTripPlan.steps 0 [] [])).head? =
        some [] ∧
      List.Chain' CtxExtends
        (ctxChain (runSteps (Val.str "L") roundTripPlan.steps 0 [] []))) :=
  ⟨by decide,
    execution_context_monotone roundTripPlan ["Echo"] yesJudge (Val.str "L")
      (by decide)⟩

/-- C9: `process_request` never propagates a collaborator exception: it
is a total function into `Result` (exceptions being modelled as the
`.error` outcomes of the collaborators), and whenever any stage fails —
the request parser raises, the plan proposer raises, validation returns
not-ok, a step raises during execution, or the summary query raises —
the returned Result carries that failure as its error string. -/
theorem processRequest_always_returns_result (request : String)
    (parser : String → Except String UserRequest)
    (planner : UserRequest → Except String Plan)
    (reg : List String) (judge : String → Except String String)
    (lm : Val)
    (summ : String → List (String × Val) → Except String String) :
    (∀ e, parser request = .error e →
      processRequest request parser planner reg judge lm summ =
        { summary := Val.str "Request processing failed", raw_outputs := [],
          error := some e, metadata := [("request", Val.str request)] }) ∧
    (∀ req e, parser request = .ok req → planner req = .error e →
      (processRequest request parser planner reg judge lm summ).error =
        some e) ∧
    (∀ req plan, parser request = .ok req → planner req = .ok plan →
      (Plan.validate plan reg judge).1 = false →
      (processRequest request parser planner reg judge lm summ).error =
        some (Plan.validate plan reg judge).2) ∧
    (∀ req plan e, parser request = .ok req → planner req = .ok plan →
      (Plan.validate plan reg judge).1 = true →
      (runSteps lm plan.steps 0 [] []).2.2.2 = some e →
      (processRequest request parser planner reg judge lm summ).error =
        some e) ∧
    (∀ req plan e, parser request = .ok req → planner req = .ok plan →
      (Plan.validate plan reg judge).1 = true →
      (runSteps lm plan.steps 0 [] []).2.2.2 = none →
      summ plan.goal (runSteps lm plan.steps 0 [] []).2.2.1 = .error e →
      (processRequest request parser planner reg judge lm summ).error =
        some e) := by
  refine ⟨?_, ?_, ?_, ?_, ?_⟩
  · intro e hp
    simp [processRequest, hp]
  · intro req e hp hpl
    simp [processRequest, hp, hpl]
  · intro req plan hp hpl hval
    simp [processRequest, hp, hpl, hval]
  · intro req plan e hp hpl hval hrun
    simp [processRequest, hp, hpl, hval, executePlan, hrun]
  · intro req plan e hp hpl hval hrun hsum
    simp [processRequest, hp, hpl, hval, executePlan, hrun, hsum]

/-- C9 witness: a parser that raises is wrapped into a failed Result
with the exception text as error. -/
theorem processRequest_always_returns_result_witness :
    ((fun _ => Except.error "parse boom" :
        String → Except String UserRequest) "hi" = .error "parse boom") ∧
    processRequest "hi" (fun _ => Except.error "parse boom")
        (fun _ => Except.error "unused") ["Echo"] yesJudge (Val.str "L")
        okSummarizer =
      { summary := Val.str "Request processing failed", raw_outputs := [],
        error := some "parse boom",
        metadata := [("request", Val.str "hi")] } :=
  ⟨rfl,
    (processRequest_always_returns_result "hi"
      (fun _ => Except.error "parse boom") (fun _ => Except.error "unused")
      ["Echo"] yesJudge (Val.str "L") okSummarizer).1 "parse boom" rfl⟩

/-- C7: `register_action` fails with the duplicate message exactly when
the chosen name (the given name, or — since Python treats the empty
string like None — the class name when no non-empty name is given) is
already a key of the registry; on success the registry gains exactly
the one new binding at the end; and lookup errors exactly on absent
names, so a name being a duplicate at registration is never what makes
a lookup fail. -/
theorem registerAction_duplicate_iff (name : Option String)
    (clsName : String) (reg : List (String × String)) :
    ((∃ e, registerAction name clsName reg = .error e) ↔
      chosenActionName name clsName ∈ keysOf reg) ∧
    (∀ reg2, registerAction name clsName reg = .ok reg2 →
      reg2 = reg ++ [(chosenActionName name clsName, clsName)]) ∧
    (∀ n, (∃ e, lookupAction reg n = .error e) ↔ n ∉ keysOf reg) := by
  refine ⟨?_, ?_, ?_⟩
  · cases hd : dget reg (chosenActionName name clsName) with
    | some cls =>
      constructor
      · intro _
        by_contra hmem
        rw [(dget_eq_none_iff reg (chosenActionName name clsName)).mpr hmem]
          at hd
        exact Option.noConfusion hd
      · intro _
        exact ⟨"Action " ++ chosenActionName name clsName ++
          " already registered", by simp [registerAction, hd]⟩
    | none =>
      constructor
      · intro he
        obtain ⟨e, he⟩ := he
        simp [registerAction, hd] at he
      · intro hmem
        exact absurd hmem
          ((dget_eq_none_iff reg (chosenActionName name clsName)).mp hd)
  · intro reg2 hok
    by_cases hd : dget reg (chosenActionName name clsName) = none
    · simp [registerAction, hd] at hok
      exact hok.symm
    · simp [registerAction, hd] at hok
  · intro n
    cases hd : dget reg n with
    | some cls =>
      constructor
      · intro he
        obtain ⟨e, he⟩ := he
        simp [lookupAction, hd] at he
      · intro hmem
        rw [(dget_eq_none_iff reg n).mpr hmem] at hd
        exact Option.noConfusion hd
    | none =>
      constructor
      · intro _
        exact (dget_eq_none_iff reg n).mp hd
      · intro _
        exact ⟨quoted n, by simp [lookupAction, hd]⟩

/-- C7 witness: registering the already-present name "A" errors, and
registering it into the empty registry adds exactly that binding. -/
theorem registerAction_duplicate_iff_witness :
    chosenActionName (some "A") "C" ∈ keysOf [("A", "C0")] ∧
    (∃ e, registerAction (some "A") "C" [("A", "C0")] = .error e) ∧
    registerAction (some "A") "C" [] = .ok [("A", "C")] ∧
    [("A", "C")] = ([] : List (String × String)) ++
      [(chosenActionName (some "A") "C", "C")] :=
  ⟨by decide,
    (registerAction_duplicate_iff (some "A") "C" [("A", "C0")]).1.mpr
      (by decide),
    by rfl,
    (registerAction_duplicate_iff (some "A") "C" []).2.1 [("A", "C")]
      (by rfl)⟩

/-- C10: `get_registered_actions` returns a fresh copy of the global
registry: the copy holds the same entries, taking it leaves the global
cell untouched, and any sequence of mutations applied to the returned
dict object leaves the global registry (heap cell 0) exactly as it
was — so only `register_action`, which writes the global cell itself,
can change it. -/
theorem getRegisteredActions_copy_isolated (h : Heap)
    (hne : 0 < h.length) (muts : List DictMut) :
    (getRegisteredActions h).2.getD 0 [] = h.getD 0 [] ∧
    (getRegisteredActions h).2.getD (getRegisteredActions h).1 [] =
      h.getD 0 [] ∧
    (heapWriteAll (getRegisteredActions h).2 (getRegisteredActions h).1
        muts).getD 0 [] = h.getD 0 [] := by
  obtain ⟨r0, hrest⟩ : ∃ r0 rest, h = r0 :: rest := by
    cases h with
    | nil => simp at hne
    | cons a l => exact ⟨a, l, rfl⟩
  obtain ⟨rest, hh⟩ := hrest
  subst hh
  refine ⟨by simp [getRegisteredActions], ?_, ?_⟩
  · show ((r0 :: rest) ++ [(r0 :: rest).getD 0 []]).getD
      (r0 :: rest).length [] = (r0 :: rest).getD 0 []
    have hlen : ∀ (l : Heap) (x : List (String × String)),
        (l ++ [x]).getD l.length [] = x := by
      intro l x
      induction l with
      | nil => rfl
      | cons a l2 ih => exact ih
    exact hlen (r0 :: rest) ((r0 :: rest).getD 0 [])
  · have hstep : ∀ (hp : Heap) (a : Nat) (m : DictMut), a ≠ 0 →
        (heapWrite hp a m).getD 0 [] = hp.getD 0 [] := by
      intro hp a m ha
      cases hp with
      | nil => simp [heapWrite]
      | cons y t =>
        cases a with
        | zero => exact absurd rfl ha
        | succ a2 => simp [heapWrite]
    have hall : ∀ (ms : List DictMut) (hp : Heap) (a : Nat), a ≠ 0 →
        (heapWriteAll hp a ms).getD 0 [] = hp.getD 0 [] := by
      intro ms
      induction ms with
      | nil => intro hp a ha; rfl
      | cons m ms2 ih =>
        intro hp a ha
        show (heapWriteAll (heapWrite hp a m) a ms2).getD 0 [] = hp.getD 0 []
        rw [ih (heapWrite hp a m) a ha, hstep hp a m ha]
    have haddr : (getRegisteredActions (r0 :: rest)).1 ≠ 0 := by
      simp [getRegisteredActions]
    rw [hall muts (getRegisteredActions (r0 :: rest)).2
      (getRegisteredActions (r0 :: rest)).1 haddr]
    simp [getRegisteredActions]

/-- C10 witness: writing, deleting and clearing the copied registry
leaves the global registry cell unchanged. -/
theorem getRegisteredActions_copy_isolated_witness :
    0 < ([[("A", "C")]] : Heap).length ∧
    ((getRegisteredActions [[("A", "C")]]).2.getD 0 [] =
        ([[("A", "C")]] : Heap).getD 0 [] ∧
      (getRegisteredActions [[("A", "C")]]).2.getD
          (getRegisteredActions [[("A", "C")]]).1 [] =
        ([[("A", "C")]] : Heap).getD 0 [] ∧
      (heapWriteAll (getRegisteredActions [[("A", "C")]]).2
          (getRegisteredActions [[("A", "C")]]).1
          [DictMut.set "A" "X", DictMut.del "A", DictMut.clear]).getD 0 [] =
        ([[("A", "C")]] : Heap).getD 0 []) :=
  ⟨by decide,
    getRegisteredActions_copy_isolated [[("A", "C")]] (by decide)
      [DictMut.set "A" "X", DictMut.del "A", DictMut.clear]⟩

/-- C3 witness: the forward-reference statement instantiated on the
one-step plan whose step consumes the never-produced key "x"; the
message decomposition names step 1 and the key. -/
theorem validate_rejects_forward_reference_witness :
    badRefPlan.steps = [] ++ badRefStep :: [] ∧
    ("text", "x") ∈ badRefStep.input_mapping ∧
    ("x" : String) ∉ outKeys [] ∧
    ((Plan.validate badRefPlan ["Echo"] yesJudge).1 = false ∧
      (validateSteps ["Echo"] 0 [] [] = none →
        badRefStep.action.clsName ∈ ["Echo"] →
        findBadSource badRefStep.input_mapping (outKeys []) =
          some ("text", "x") →
        ∃ a b c d,
          (Plan.validate badRefPlan ["Echo"] yesJudge).2 =
            a ++ toString (1 : Nat) ++ b ∧
          (Plan.validate badRefPlan ["Echo"] yesJudge).2 = c ++ "x" ++ d)) :=
  ⟨rfl, by decide, by decide,
    validate_rejects_forward_reference badRefPlan ["Echo"] yesJudge
      [] [] badRefStep "text" "x" rfl (by decide) (by decide)⟩

/-- C4 witness: the duplicate-key and empty-plan statement instantiated
on the two-step plan whose steps both store "x". -/
theorem validate_rejects_duplicate_and_empty_witness :
    dupPlan.steps = [] ++ dupStep1 :: [] ++ dupStep2 :: [] ∧
    dupStep1.output_key = dupStep2.output_key ∧
    dupStep2.output_key ≠ "" ∧
    ((Plan.validate dupPlan ["Echo"] yesJudge).1 = false ∧
      ∀ (g : String) (reg2 : List String)
        (lm2 : String → Except String String),
        Plan.validate { goal := g, steps := [] } reg2 lm2 =
          (false, "Plan Validation Failed: Plan has no steps.")) :=
  ⟨rfl, by decide, by decide,
    validate_rejects_duplicate_and_empty dupPlan ["Echo"] yesJudge
      [] [] [] dupStep1 dupStep2 rfl (by decide) (by decide)⟩

end Pipo
